import Mathlib

/-!
Verification of the Agently planning/verification core (src/planner/planner.py,
src/planner/verifier.py) against its natural-language specification.

Strings are modelled as `List Char` (Python `str`).  Dynamic Python values
(`Any`, JSON data) are modelled by the inductive type `Json` below, with JSON
numbers as rationals.  Python exceptions are modelled with `Except PyErr`;
a function that Python wraps in `try/except` is modelled by matching on the
`Except` value at the same place the source catches.
-/

set_option linter.unusedVariables false

namespace Agently

/-- Dynamic JSON / Python data values. Numbers are rationals (CPython uses
int/float; every literal appearing in this development is exactly
representable, so equality of parsed values agrees). Objects are ordered
key/value lists; lookups take the last binding, as `json.loads` keeps the
last duplicate key. -/
inductive Json where
  | null : Json
  | bool (b : Bool) : Json
  | num (q : ℚ) : Json
  | str (s : List Char) : Json
  | arr (xs : List Json) : Json
  | obj (kvs : List (List Char × Json)) : Json
deriving Repr

/-- Python exceptions that the modelled code can raise or catch.  The payload
is the result of `str(e)` (CPython messages that no claim inspects are
modelled by short fixed tokens). -/
inductive PyErr where
  | valueError (msg : List Char) : PyErr
  | jsonDecodeError (msg : List Char) : PyErr
  | attributeError (msg : List Char) : PyErr
  | typeError (msg : List Char) : PyErr
  | generic (msg : List Char) : PyErr
deriving Repr, DecidableEq

/-- `str(e)` for a modelled exception. -/
def errStr : PyErr → List Char
  | .valueError m => m
  | .jsonDecodeError m => m
  | .attributeError m => m
  | .typeError m => m
  | .generic m => m

/-! ### Python string primitives -/

/-- Python `str.strip()` whitespace class (ASCII part): space, tab, newline,
carriage return, vertical tab, form feed. The same class serves for the
regex `\s` in the patterns of `_clean_json_response`. -/
def isPyWs (c : Char) : Bool :=
  c = ' ' || c = '\t' || c = '\n' || c = '\r' || c = '\x0b' || c = '\x0c'

/-- Python `str.strip()`: drop leading and trailing whitespace. -/
def pyStrip (l : List Char) : List Char :=
  ((l.dropWhile isPyWs).reverse.dropWhile isPyWs).reverse

/-- `p` is a leading block of `l` (Python `str.startswith`). -/
def startsList : List Char → List Char → Bool
  | [], _ => true
  | _ :: _, [] => false
  | p :: ps, x :: xs => p = x && startsList ps xs

/-- Python `str.endswith`. -/
def endsList (p l : List Char) : Bool :=
  startsList p.reverse l.reverse

/-- Python `sub in s` for strings (substring containment). -/
def hasSubstr (pat : List Char) : List Char → Bool
  | [] => pat.isEmpty
  | x :: xs => startsList pat (x :: xs) || hasSubstr pat xs

/-- Whether the two-character pattern `a` `b` occurs (adjacent) in the list. -/
def hasPair (a b : Char) : List Char → Bool
  | x :: y :: r => (x = a && y = b) || hasPair a b (y :: r)
  | _ => false

/-- Whether character `c` occurs in the list. -/
def hasChar (c : Char) (l : List Char) : Bool := l.any (· = c)

/-- Whether the list ends with character `c`. -/
def endsChar (c : Char) : List Char → Bool
  | [] => false
  | [x] => x = c
  | _ :: r => endsChar c r

/-- Python `str.lower()` (ASCII case folding; all strings that reach the
modelled lowering are ASCII). -/
def lowerStr (l : List Char) : List Char := l.map Char.toLower

/-- Whether the list starts with character `c`. -/
def headIs (c : Char) : List Char → Bool
  | x :: _ => x = c
  | [] => false

/-! ### The three regex passes of `_clean_json_response`

`re.sub(r'//.*$', '', s, flags=re.MULTILINE)` deletes, on every physical
line, everything from the first `//` to the end of the line.  `slcAux true`
is the state "inside a line comment": characters are dropped until a
newline, which is kept (the regex `.` does not match `\n` and `$` matches
just before it).  On meeting `//` the scan may re-enter at the second `/`:
it is dropped by the comment state like any other non-newline character. -/
def slcAux : Bool → List Char → List Char
  | _, [] => []
  | true, c :: r => if c = '\n' then '\n' :: slcAux false r else slcAux true r
  | false, c :: r =>
      if c = '/' && headIs '/' r then slcAux true r else c :: slcAux false r

/-- The `//`-line-comment removal step of `_clean_json_response`. -/
def stripLineComments (l : List Char) : List Char := slcAux false l

/-- `re.sub(r'/\*.*?\*/', '', s, flags=re.DOTALL)`: a match starts at `/*`
only when a closing `*/` exists further on, and the non-greedy `.*?` ends
the match at the first `*/`.  When the guard fails there is no match at
this `/*` nor at any later one (a later `/*` would need a `*/` even
further right), so continuing the scan leaves the remainder unchanged and
is equivalent to the `re.sub` result. -/
def sbcAux : Bool → List Char → List Char
  | _, [] => []
  | false, '/' :: '*' :: r =>
      if hasPair '*' '/' r then sbcAux true r else '/' :: '*' :: r
  | false, c :: r => c :: sbcAux false r
  | true, '*' :: '/' :: r => sbcAux false r
  | true, _ :: r => sbcAux true r

/-- The `/* ... */` block-comment removal step of `_clean_json_response`. -/
def stripBlockComments (l : List Char) : List Char := sbcAux false l

/-- Whether the remainder after a comma matches `\s*[}\]]`: the first
non-whitespace character is a closing brace or bracket. -/
def commaMatch (r : List Char) : Bool :=
  match r.dropWhile isPyWs with
  | b :: _ => b = '}' || b = ']'
  | [] => false

/-- `re.sub(r',(\s*[}\]])', r'\1', s)`: a comma whose next non-whitespace
character is `}` or `]` is deleted, the whitespace and bracket are kept.
After a match `re.sub` resumes after the bracket; re-scanning the kept
whitespace-and-bracket region is equivalent because no comma occurs in it,
so no new match can start there. -/
def rtcAux : List Char → List Char
  | [] => []
  | c :: r => if c = ',' && commaMatch r then rtcAux r else c :: rtcAux r

/-- The trailing-comma removal step of `_clean_json_response`. -/
def removeTrailingCommas (l : List Char) : List Char := rtcAux l

/-- Index of the first occurrence of `c`. -/
def firstIdxOf (c : Char) : List Char → Option ℕ
  | [] => none
  | x :: xs => if x = c then some 0 else (firstIdxOf c xs).map (· + 1)

/-- `re.search(r'\{.*\}', s, flags=re.DOTALL)`: with a greedy `.*`, the
match (when one exists) runs from the first `{` to the last `}`; a match
exists exactly when the first `{` precedes the last `}`.  On a match the
candidate payload is replaced by the matched span, otherwise the text is
kept unchanged. -/
def extractBraces (l : List Char) : List Char :=
  match firstIdxOf '{' l, firstIdxOf '}' l.reverse with
  | some i, some k =>
      let j := l.length - 1 - k
      if i < j then (l.drop i).take (j - i + 1) else l
  | _, _ => l

/-- The markdown fence stripping of `_clean_json_response` (planner.py:79-86):
drop a leading `` ```json `` (7 characters) or `` ``` `` (3 characters), and a
trailing `` ``` `` (`[:-3]`). -/
def stripFences (c0 : List Char) : List Char :=
  let c1 := if startsList "```json".data c0 then c0.drop 7 else c0
  let c2 := if startsList "```".data c1 then c1.drop 3 else c1
  if endsList "```".data c2 then (c2.reverse.drop 3).reverse else c2

/-- The repair chain of `_clean_json_response` after the initial strip
(planner.py:80-101): fence strip, re-strip, comment removal, trailing-comma
removal, brace-span extraction. -/
def repairBody (c0 : List Char) : List Char :=
  extractBraces (removeTrailingCommas (stripBlockComments (stripLineComments
    (pyStrip (stripFences c0)))))

/-- `AgentlyPlanner._clean_json_response` (src/planner/planner.py:74-103).
Raises `ValueError("Empty response from LLM")` on an empty or
whitespace-only response; otherwise strips markdown code fences, removes
`//` line comments and `/* */` block comments, removes trailing commas
before closing brackets, and extracts the outermost `{...}` span. -/
def cleanJsonResponse (response : List Char) : Except PyErr (List Char) :=
  if pyStrip response = [] then
    .error (.valueError "Empty response from LLM".data)
  else
    .ok (repairBody (pyStrip response))

/-! ### `json.loads`

A fuel-indexed recursive-descent parser for the JSON grammar accepted by
CPython's strict `json.loads` (objects, arrays, double-quoted strings with
the standard escapes, numbers, `true`/`false`/`null`).  The fuel is sized
so that it never runs out on a well-formed input; no theorem below depends
on fuel adequacy.  CPython error messages vary with position; they are
modelled by the fixed tokens `Expecting value` / `Extra data`, which no
claim inspects. -/

/-- JSON insignificant whitespace (exactly the four characters the strict
CPython decoder skips). -/
def isJsonWs (c : Char) : Bool :=
  c = ' ' || c = '\t' || c = '\n' || c = '\r'

/-- Value of a hexadecimal digit. -/
def hexVal (c : Char) : Option ℕ :=
  if c.isDigit then some (c.toNat - 48)
  else if 'a' ≤ c && c ≤ 'f' then some (c.toNat - 87)
  else if 'A' ≤ c && c ≤ 'F' then some (c.toNat - 55)
  else none

/-- Numeric value of a digit string. -/
def digitsToNat (l : List Char) : ℕ :=
  l.foldl (fun n c => 10 * n + (c.toNat - 48)) 0

/-- Parse the body of a JSON string literal (after the opening quote),
returning the decoded characters and the remainder after the closing
quote.  Literal control characters are rejected (strict mode); `\uXXXX`
decodes to the corresponding code point (surrogate pairing is not modelled;
every string in this development is ASCII). -/
def parseStrLit : List Char → Option (List Char × List Char)
  | [] => none
  | '"' :: r => some ([], r)
  | '\\' :: 'u' :: a :: b :: c :: d :: r =>
      match hexVal a, hexVal b, hexVal c, hexVal d with
      | some ha, some hb, some hc, some hd =>
          match parseStrLit r with
          | some (cs, rest) =>
              some (Char.ofNat (((ha * 16 + hb) * 16 + hc) * 16 + hd) :: cs, rest)
          | none => none
      | _, _, _, _ => none
  | '\\' :: e :: r =>
      match
        (match e with
          | '"' => some '"'
          | '\\' => some '\\'
          | '/' => some '/'
          | 'b' => some '\x08'
          | 'f' => some '\x0c'
          | 'n' => some '\n'
          | 'r' => some '\r'
          | 't' => some '\t'
          | _ => none) with
      | some ch =>
          match parseStrLit r with
          | some (cs, rest) => some (ch :: cs, rest)
          | none => none
      | none => none
  | c :: r =>
      if c.toNat < 32 then none
      else
        match parseStrLit r with
        | some (cs, rest) => some (c :: cs, rest)
        | none => none

/-- Parse a JSON number at the head of the input (which must start with its
first character; leading whitespace already skipped).  Follows the strict
grammar: optional minus, `0` or a nonzero-led digit run, optional fraction
with at least one digit, optional exponent. -/
def parseNum (s : List Char) : Option (Json × List Char) :=
  let (neg, s1) := match s with
    | '-' :: r => (true, r)
    | _ => (false, s)
  match s1 with
  | [] => none
  | c :: _ =>
    if !c.isDigit then none
    else
      let (ip, r1) :=
        if c = '0' then ([c], s1.tail)
        else (s1.takeWhile Char.isDigit, s1.dropWhile Char.isDigit)
      let (fp, r2) :=
        match r1 with
        | '.' :: rf =>
            (rf.takeWhile Char.isDigit, rf.dropWhile Char.isDigit)
        | _ => ([], r1)
      if (match r1 with | '.' :: _ => fp.isEmpty | _ => false) then none
      else
        let (hasExp, esign, ed, r3) :=
          match r2 with
          | 'e' :: '+' :: re => (true, (1 : ℤ), re.takeWhile Char.isDigit, re.dropWhile Char.isDigit)
          | 'e' :: '-' :: re => (true, (-1 : ℤ), re.takeWhile Char.isDigit, re.dropWhile Char.isDigit)
          | 'e' :: re => (true, (1 : ℤ), re.takeWhile Char.isDigit, re.dropWhile Char.isDigit)
          | 'E' :: '+' :: re => (true, (1 : ℤ), re.takeWhile Char.isDigit, re.dropWhile Char.isDigit)
          | 'E' :: '-' :: re => (true, (-1 : ℤ), re.takeWhile Char.isDigit, re.dropWhile Char.isDigit)
          | 'E' :: re => (true, (1 : ℤ), re.takeWhile Char.isDigit, re.dropWhile Char.isDigit)
          | _ => (false, (1 : ℤ), [], r2)
        if hasExp && ed.isEmpty then none
        else
          let mantNat : ℕ := digitsToNat ip * 10 ^ fp.length + digitsToNat fp
          let mant : ℤ := if neg then -(mantNat : ℤ) else (mantNat : ℤ)
          let e : ℤ := esign * (digitsToNat ed : ℤ) - (fp.length : ℤ)
          let q : ℚ :=
            if 0 ≤ e then mkRat (mant * ((10 ^ e.toNat : ℕ) : ℤ)) 1
            else mkRat mant (10 ^ (-e).toNat)
          some (.num q, r3)

mutual

/-- Parse one JSON value, returning it and the unconsumed remainder. -/
def parseVal : ℕ → List Char → Option (Json × List Char)
  | 0, _ => none
  | fuel + 1, s =>
    match s.dropWhile isJsonWs with
    | 'n' :: 'u' :: 'l' :: 'l' :: r => some (.null, r)
    | 't' :: 'r' :: 'u' :: 'e' :: r => some (.bool true, r)
    | 'f' :: 'a' :: 'l' :: 's' :: 'e' :: r => some (.bool false, r)
    | '"' :: r =>
        match parseStrLit r with
        | some (cs, r2) => some (.str cs, r2)
        | none => none
    | '[' :: r =>
        match r.dropWhile isJsonWs with
        | ']' :: r2 => some (.arr [], r2)
        | _ =>
            match parseArrItems fuel r with
            | some (vs, r2) => some (.arr vs, r2)
            | none => none
    | '{' :: r =>
        match r.dropWhile isJsonWs with
        | '}' :: r2 => some (.obj [], r2)
        | _ =>
            match parseObjItems fuel r with
            | some (kvs, r2) => some (.obj kvs, r2)
            | none => none
    | rest => parseNum rest

/-- Parse a nonempty comma-separated list of array items up to the closing
bracket. -/
def parseArrItems : ℕ → List Char → Option (List Json × List Char)
  | 0, _ => none
  | fuel + 1, s =>
    match parseVal fuel s with
    | none => none
    | some (v, r) =>
      match r.dropWhile isJsonWs with
      | ',' :: r2 =>
          match parseArrItems fuel r2 with
          | some (vs, r3) => some (v :: vs, r3)
          | none => none
      | ']' :: r2 => some ([v], r2)
      | _ => none

/-- Parse a nonempty comma-separated list of object members up to the
closing brace. -/
def parseObjItems : ℕ → List Char → Option (List (List Char × Json) × List Char)
  | 0, _ => none
  | fuel + 1, s =>
    match s.dropWhile isJsonWs with
    | '"' :: r =>
      match parseStrLit r with
      | none => none
      | some (k, r2) =>
        match r2.dropWhile isJsonWs with
        | ':' :: r3 =>
          match parseVal fuel r3 with
          | none => none
          | some (v, r4) =>
            match r4.dropWhile isJsonWs with
            | ',' :: r5 =>
                match parseObjItems fuel r5 with
                | some (kvs, r6) => some ((k, v) :: kvs, r6)
                | none => none
            | '}' :: r5 => some ([(k, v)], r5)
            | _ => none
        | _ => none
    | _ => none

end

/-- `json.loads` on a Python string: parse one value, then require only
whitespace to remain. -/
def pyJsonLoads (s : List Char) : Except PyErr Json :=
  match parseVal (2 * s.length + 2) s with
  | some (j, rest) =>
      if rest.dropWhile isJsonWs = [] then .ok j
      else .error (.jsonDecodeError "Extra data".data)
  | none => .error (.jsonDecodeError "Expecting value".data)

/-! ### Dynamic value helpers -/

/-- Last binding of a key in an ordered key/value list (`dict` semantics:
for duplicate keys the last insertion wins). -/
def lookupLast (kvs : List (List Char × Json)) (k : List Char) : Option Json :=
  kvs.foldl (fun acc p => if p.1 = k then some p.2 else acc) none

/-- Python `d.get(key, default)`.  Raises `AttributeError` when the value is
not a dict (lists, strings, numbers, booleans and `None` have no `get`). -/
def pyDictGet (j : Json) (k : List Char) (d : Json) : Except PyErr Json :=
  match j with
  | .obj kvs => .ok ((lookupLast kvs k).getD d)
  | _ => .error (.attributeError "get".data)

/-- Python truthiness of a dynamic value. -/
def pyTruthy : Json → Bool
  | .null => false
  | .bool b => b
  | .num q => q ≠ 0
  | .str s => !s.isEmpty
  | .arr xs => !xs.isEmpty
  | .obj kvs => !kvs.isEmpty

/-! ### Data model (src/planner/planner.py dataclasses) -/

/-- One accessibility element of the UI graph, at the type documented by the
data model (role/title/label/value/owning application as optional strings,
enabled flag).  On values of this shape the prompt-construction helpers
(`_summarize_ui_graph`, `_find_relevant_elements`,
`_extract_interactive_elements`) are total string formatting, which is why
they do not appear in the exception flow modelled below. -/
structure UIElement where
  role : Option (List Char) := none
  title : Option (List Char) := none
  label : Option (List Char) := none
  value : Option (List Char) := none
  applicationName : Option (List Char) := none
  isEnabled : Bool := false

/-- `PlanningContext` (planner.py:23-35).  `previous_actions` defaults to the
empty list (the `__post_init__` replaces `None`); `error_context` is an
optional dict. -/
structure PlanningContext where
  task : List Char
  uiGraph : List (List Char × UIElement)
  activeApplication : Option (List Char) := none
  previousActions : List Json := []
  errorContext : Option (List (List Char × Json)) := none

/-- `ActionPlan` (planner.py:38-45).  The fields are populated from parsed
model output without runtime type checks, so they hold dynamic values. -/
structure ActionPlan where
  reasoning : Json
  actions : Json
  confidence : Json
  metadata : Option Json := none
deriving Repr

/-- Outcome of one `_call_llm` invocation, supplied as an oracle: the call
either raises a transport exception (re-raised by `_call_llm` after
logging) or returns the model's text. -/
inductive LLMBehaviour where
  | raise (msg : List Char) : LLMBehaviour
  | reply (text : List Char) : LLMBehaviour

/-- `_call_llm` (planner.py:250-308): logs and re-raises any API failure,
otherwise returns the response content. -/
def callLLM : LLMBehaviour → Except PyErr (List Char)
  | .raise m => .error (.generic m)
  | .reply t => .ok t

/-! ### Planning Engine (planner.py) -/

/-- The fallback plan `generate_plan` returns when anything goes wrong
(planner.py:150-154). -/
def planFallback (e : PyErr) : ActionPlan :=
  { reasoning := .str ("Error in planning: ".data ++ errStr e)
    actions := .arr []
    confidence := .num 0
    metadata := none }

/-- `AgentlyPlanner.generate_plan` (planner.py:105-154).  Prompt
construction over the typed context is total and feeds only the model call
(modelled by the oracle `beh`).  The inner `except json.JSONDecodeError`
re-raises as `ValueError("Invalid JSON response: ...")`; the outer
`except Exception` converts any failure into the fallback plan, so the
function is total. -/
def generatePlan (ctx : PlanningContext) (beh : LLMBehaviour) : ActionPlan :=
  match gpTry ctx beh with
  | .ok p => p
  | .error e => planFallback e
where
  /-- The body of the outer `try` of `generate_plan`: every raise inside it
  surfaces as `.error` and is turned into the fallback plan above. -/
  gpTry (ctx : PlanningContext) (beh : LLMBehaviour) : Except PyErr ActionPlan :=
    match callLLM beh with
    | .error e => .error e
    | .ok response =>
      match cleanJsonResponse response with
      | .error e => .error e
      | .ok cleanResponse =>
        match pyJsonLoads cleanResponse with
        | .error e => .error (.valueError ("Invalid JSON response: ".data ++ errStr e))
        | .ok planData =>
          match pyDictGet planData "reasoning".data (.str []) with
          | .error e => .error e
          | .ok reasoning =>
            match pyDictGet planData "actions".data (.arr []) with
            | .error e => .error e
            | .ok actions =>
              match pyDictGet planData "confidence".data (.num (mkRat 1 2)) with
              | .error e => .error e
              | .ok confidence =>
                  .ok { reasoning := reasoning, actions := actions
                        confidence := confidence, metadata := none }

/-- The fallback plan of `recover_from_error` (planner.py:188-192 and
203-207; both sites build the same record). -/
def recoveryFallback (e : PyErr) : ActionPlan :=
  { reasoning := .str ("Recovery planning failed: ".data ++ errStr e)
    actions := .arr []
    confidence := .num 0
    metadata := none }

/-- Truthiness of `context.error_context` (`if not context.error_context`):
`None` and the empty dict are both falsy. -/
def truthyErrorContext : Option (List (List Char × Json)) → Bool
  | none => false
  | some kvs => !kvs.isEmpty

/-- `AgentlyPlanner.recover_from_error` (planner.py:156-207).  Without a
truthy `error_context` it degrades to `generate_plan`.  Otherwise the inner
`except Exception` around clean-and-parse returns the fallback early; field
extraction happens outside the inner try and its `AttributeError` (non-dict
payload) is caught by the outer handler. -/
def recoverFromError (ctx : PlanningContext) (beh : LLMBehaviour) : ActionPlan :=
  if !truthyErrorContext ctx.errorContext then generatePlan ctx beh
  else
    match reTry beh with
    | .ok p => p
    | .error e => recoveryFallback e
where
  /-- The body of the outer `try` of `recover_from_error` (reached only with
  a truthy `error_context`).  The inner `try` around clean-and-parse returns
  the fallback plan early on any parse failure; the `.get` extraction sits
  outside the inner `try` and its raise propagates to the outer handler. -/
  reTry (beh : LLMBehaviour) : Except PyErr ActionPlan :=
    match callLLM beh with
    | .error e => .error e
    | .ok response =>
      match (cleanJsonResponse response).bind pyJsonLoads with
      | .error e => .ok (recoveryFallback e)
      | .ok recoveryData =>
        match pyDictGet recoveryData "recovery_strategy".data (.str []) with
        | .error e => .error e
        | .ok reasoning =>
          match pyDictGet recoveryData "actions".data (.arr []) with
          | .error e => .error e
          | .ok actions =>
              .ok { reasoning := reasoning
                    actions := actions
                    confidence := .num (mkRat 7 10)
                    metadata := some (.obj [("is_recovery".data, .bool true)]) }

/-! ### Step Verifier (src/planner/verifier.py) -/

/-- `VerificationResult` (verifier.py:21-33), at the types declared by the
dataclass.  `llm_response` is an optional dict of dynamic values (it is
only ever populated with a parsed JSON object or the synthesized failure
object). -/
structure VerificationResult where
  success : Bool
  confidence : ℚ
  reasoning : List Char
  screenshot_path : Option (List Char) := none
  ui_graph_path : Option (List Char) := none
  validation_prompt : Option (List Char) := none
  llm_response : Option (List (List Char × Json)) := none
  should_retry : Bool := false
  retry_reason : List Char := []
  plan_update : Option Json := none
deriving Repr

/-- Decimal digits of the fractional part `rem/den`, with enough fuel for
every constant reachable here; CPython prints floats as their shortest
round-trip decimal, which on these constants is the same expansion.  No
claim inspects the resulting text. -/
def fracDigits : ℕ → ℕ → ℕ → List Char
  | 0, _, _ => []
  | _, 0, _ => []
  | fuel + 1, rem, den =>
      Char.ofNat (48 + rem * 10 / den) :: fracDigits fuel (rem * 10 % den) den

/-- Decimal rendering of a confidence value, as interpolated into the retry
reasons (`f"Low confidence ({confidence}) ..."`). -/
def ratRepr (q : ℚ) : List Char :=
  let sign : List Char := if q < 0 then ['-'] else []
  let n := q.num.natAbs
  let d := q.den
  let fpart := if n % d = 0 then ['0'] else fracDigits 30 (n % d) d
  sign ++ Nat.toDigits 10 (n / d) ++ '.' :: fpart

/-- The incompleteness keyword list of the retry policy
(verifier.py:383-387). -/
def incompleteKeywords : List (List Char) :=
  ["incomplete".data, "not finished".data, "didn\x27t complete".data,
   "unfinished".data, "not done".data, "still needs".data, "requires".data,
   "missing".data, "not sent".data, "not typed".data, "not clicked".data,
   "not focused".data, "no clear indicator".data]

/-- `StepVerifier.should_retry_step` (verifier.py:350-397): the fixed
priority chain.  `max_retries` is accepted and never read.  The only raise
the chain can produce is `AttributeError` from `.strip()` when
`llm_response["suggested_next_action"]` holds a truthy non-string; every
other path returns a decision. -/
def shouldRetryStep (r : VerificationResult) (maxRetries : ℕ) :
    Except PyErr (Bool × List Char) :=
  if r.success then .ok (false, "Step verified successfully".data)
  else if r.confidence < mkRat 3 10 then
    .ok (true, "Low confidence (".data ++ ratRepr r.confidence ++ ") - step likely failed".data)
  else if r.confidence < mkRat 8 10 then
    .ok (true, "Moderate confidence (".data ++ ratRepr r.confidence ++ ") - step may have failed".data)
  else if hasSubstr "error".data (lowerStr r.reasoning) then
    .ok (true, "Error detected in verification".data)
  else if hasSubstr "not found".data (lowerStr r.reasoning) then
    .ok (true, "Expected element not found".data)
  else if hasSubstr "failed".data (lowerStr r.reasoning) then
    .ok (true, "Step explicitly marked as failed".data)
  else if incompleteKeywords.any (fun k => hasSubstr k (lowerStr r.reasoning)) then
    .ok (true, "Task appears incomplete based on verification".data)
  else
    match r.llm_response with
    | some kvs =>
        if !kvs.isEmpty && kvs.any (·.1 = "suggested_next_action".data) then
          match (lookupLast kvs "suggested_next_action".data).getD (.str []) with
          | .str s =>
              if !s.isEmpty && !(pyStrip s).isEmpty && hasSubstr "try".data (lowerStr s) then
                .ok (true, "LLM suggests retry action".data)
              else .ok (true, "Step verification failed - retrying for completion".data)
          | suggested =>
              if pyTruthy suggested then .error (.attributeError "strip".data)
              else .ok (true, "Step verification failed - retrying for completion".data)
        else .ok (true, "Step verification failed - retrying for completion".data)
    | none => .ok (true, "Step verification failed - retrying for completion".data)

/-! ### State Analyzer (verifier.py:399-560) -/

/-- The fixed degraded report `_perform_state_analysis` returns when the
analysis fails (verifier.py:549-560); `msg` is `str(e)` of the caught
exception. -/
def degradedReport (msg : List Char) : Json :=
  .obj
    [("current_progress".data, .str "Analysis failed".data),
     ("remaining_work".data, .str "Unable to determine".data),
     ("task_completed".data, .bool false),
     ("completion_confidence".data, .num 0),
     ("approach_working".data, .bool false),
     ("suggested_next_actions".data, .arr []),
     ("plan_update_needed".data, .bool true),
     ("plan_update_reason".data, .str ("Analysis failed: ".data ++ msg)),
     ("obstacles".data, .arr [.str "Analysis error".data]),
     ("confidence".data, .num 0)]

/-- `StepVerifier._perform_state_analysis` (verifier.py:488-560): calls the
model, rejects an empty or whitespace-only response, parses the raw
response with `json.loads` (no repair), and converts any failure into the
fixed degraded report.  Total: nothing escapes its `except Exception`. -/
def performStateAnalysis (beh : LLMBehaviour) : Json :=
  match callLLM beh with
  | .error e => degradedReport (errStr e)
  | .ok s =>
      if pyStrip s = [] then
        degradedReport (errStr (.valueError "Empty response from LLM".data))
      else
        match pyJsonLoads s with
        | .ok j => j
        | .error e => degradedReport (errStr e)

/-- `StepVerifier.analyze_state_and_suggest_plan` (verifier.py:399-432):
renders the analysis prompt (total string formatting over the arguments,
affecting only the model call, which the oracle `beh` answers) and runs
`_perform_state_analysis`. -/
def analyzeStateAndSuggestPlan (userTask currentStep : List Char)
    (completedActions : List Json) (screenshotPath runDir : List Char)
    (beh : LLMBehaviour) : Json :=
  performStateAnalysis beh

/-! ### `verify_step` (verifier.py:44-136) -/

/-- The simple-action list of the fast path (verifier.py:71). -/
def simpleActions : List (List Char) := ["wait".data, "delay".data, "sleep".data]

/-- The fast-path test (verifier.py:72):
`any(simple_action in action_type.lower() for simple_action in simple_actions)`. -/
def simpleActionHit (actionType : List Char) : Bool :=
  simpleActions.any (fun sa => hasSubstr sa (lowerStr actionType))

/-- The result returned by the fast path (verifier.py:74-83). -/
def simpleResult : VerificationResult :=
  { success := true
    confidence := 1
    reasoning := "Simple action - no verification needed".data
    should_retry := false
    retry_reason := []
    screenshot_path := some []
    ui_graph_path := none
    plan_update := none }

/-- `_generate_validation_prompt` (verifier.py:242-263). -/
def validationPromptText (stepDescription actionType actionDescription : List Char) :
    List Char :=
  "Verify if this step was completed successfully:\n\nSTEP: ".data ++ stepDescription ++
  "\nACTION: ".data ++ actionType ++ " - ".data ++ actionDescription ++
  "\n\nBased on the screenshot, respond with JSON:\n\x7b\n    \"success\": true/false,\n    \"confidence\": 0.0-1.0,\n    \"reasoning\": \"Brief explanation\",\n    \"visual_evidence\": \"What you see\",\n    \"suggested_next_action\": \"If failed, what to try next\"\n\x7d".data

/-- External outcomes consumed by one `verify_step` call: the screenshot
path `_capture_screenshot` produces (possibly empty on capture failure),
the `VerificationResult` `_perform_llm_validation` returns (that helper
catches all of its own failures), and the model behaviour behind the state
analysis. -/
structure VerifyEnv where
  screenshot : List Char
  validation : VerificationResult
  analysisBeh : LLMBehaviour

/-- Truthiness of the `completed_actions` argument (default `None`; an
empty list is also falsy). -/
def truthyActions : Option (List Json) → Bool
  | none => false
  | some l => !l.isEmpty

/-- `StepVerifier.verify_step` (verifier.py:44-136).  Fast path for simple
action types; otherwise capture the screenshot, run the model validation,
run the State Analyzer when `user_task` and `completed_actions` are truthy
and (the validation failed or more than 5 actions completed), attach paths
and plan update, and compute the retry decision.  The retry decision is the
one place an exception can escape (see `shouldRetryStep`); the
`analyze_state_and_suggest_plan` call is total, so its surrounding
`try/except` never fires. -/
def verifyStep (stepDescription actionType actionDescription runDir userTask : List Char)
    (completedActions : Option (List Json)) (env : VerifyEnv) :
    Except PyErr VerificationResult :=
  if simpleActionHit actionType then .ok simpleResult
  else
    let screenshotPath := env.screenshot
    let vp := validationPromptText stepDescription actionType actionDescription
    let vr0 := env.validation
    let planUpdate : Option Json :=
      if !userTask.isEmpty && truthyActions completedActions &&
          (!vr0.success || (completedActions.getD []).length > 5) then
        some (analyzeStateAndSuggestPlan userTask stepDescription
          (completedActions.getD []) screenshotPath runDir env.analysisBeh)
      else none
    let vr1 := { vr0 with
                  screenshot_path := some screenshotPath
                  ui_graph_path := none
                  validation_prompt := some vp
                  plan_update := planUpdate }
    match shouldRetryStep vr1 3 with
    | .error e => .error e
    | .ok (sr, rr) => .ok { vr1 with should_retry := sr, retry_reason := rr }

/-! ## Shared predicates and helper lemmas -/

/-- Field lookup on a JSON object value. -/
def objLookup (j : Json) (k : List Char) : Option Json :=
  match j with
  | .obj kvs => lookupLast kvs k
  | _ => none

/-- The verification result is well typed at the documented response schema
in the one place the retry policy relies on it: the value stored under
`suggested_next_action` of `llm_response`, when present, is a string. -/
def SuggestedWellTyped (r : VerificationResult) : Prop :=
  ∀ kvs, r.llm_response = some kvs →
    ∀ v, lookupLast kvs "suggested_next_action".data = some v → ∃ s, v = Json.str s

theorem shouldRetryStep_of_success (r : VerificationResult) (m : ℕ)
    (h : r.success = true) :
    shouldRetryStep r m = .ok (false, "Step verified successfully".data) := by
  simp [shouldRetryStep, h]

theorem shouldRetryStep_of_failure (r : VerificationResult) (m : ℕ)
    (h : r.success = false) (hw : SuggestedWellTyped r) :
    ∃ why, shouldRetryStep r m = .ok (true, why) := by
  unfold shouldRetryStep
  rw [h]
  simp only [Bool.false_eq_true, if_false]
  by_cases h1 : r.confidence < mkRat 3 10
  · simp only [h1, if_true]; exact ⟨_, rfl⟩
  simp only [h1, if_false]
  by_cases h2 : r.confidence < mkRat 8 10
  · simp only [h2, if_true]; exact ⟨_, rfl⟩
  simp only [h2, if_false]
  by_cases h3 : hasSubstr "error".data (lowerStr r.reasoning) = true
  · simp only [h3, if_true]; exact ⟨_, rfl⟩
  simp only [Bool.not_eq_true] at h3
  simp only [h3, if_false]
  by_cases h4 : hasSubstr "not found".data (lowerStr r.reasoning) = true
  · simp only [h4, if_true]; exact ⟨_, rfl⟩
  simp only [Bool.not_eq_true] at h4
  simp only [h4, if_false]
  by_cases h5 : hasSubstr "failed".data (lowerStr r.reasoning) = true
  · simp only [h5, if_true]; exact ⟨_, rfl⟩
  simp only [Bool.not_eq_true] at h5
  simp only [h5, if_false]
  by_cases h6 : (incompleteKeywords.any fun k => hasSubstr k (lowerStr r.reasoning)) = true
  · simp only [h6, if_true]; exact ⟨_, rfl⟩
  simp only [Bool.not_eq_true] at h6
  simp only [h6, if_false]
  cases hlr : r.llm_response with
  | none => exact ⟨_, rfl⟩
  | some kvs =>
    by_cases h7 : (!kvs.isEmpty && kvs.any fun p => p.1 = "suggested_next_action".data) = true
    · simp only [h7, if_true]
      rcases hv : lookupLast kvs "suggested_next_action".data with _ | v
      · simp only [hv, Option.getD_none]
        by_cases h8 : (!([] : List Char).isEmpty && !(pyStrip []).isEmpty &&
            hasSubstr "try".data (lowerStr [])) = true
        · simp only [h8, if_true]; exact ⟨_, rfl⟩
        · simp only [Bool.not_eq_true] at h8; simp only [h8, if_false]; exact ⟨_, rfl⟩
      · obtain ⟨s, hs⟩ := hw kvs hlr v hv
        subst hs
        simp only [hv, Option.getD_some]
        by_cases h8 : (!s.isEmpty && !(pyStrip s).isEmpty && hasSubstr "try".data (lowerStr s)) = true
        · simp only [h8, if_true]; exact ⟨_, rfl⟩
        · simp only [Bool.not_eq_true] at h8; simp only [h8, if_false]; exact ⟨_, rfl⟩
    · simp only [Bool.not_eq_true] at h7
      simp only [h7, if_false]
      exact ⟨_, rfl⟩

theorem shouldRetryStep_isOk (r : VerificationResult) (m : ℕ)
    (hw : SuggestedWellTyped r) :
    ∃ pr, shouldRetryStep r m = .ok pr := by
  cases hs : r.success
  · obtain ⟨why, h⟩ := shouldRetryStep_of_failure r m hs hw
    exact ⟨_, h⟩
  · exact ⟨_, shouldRetryStep_of_success r m hs⟩

theorem shouldRetryStep_ne_error (r : VerificationResult) (m : ℕ) (e : PyErr)
    (hw : SuggestedWellTyped r) :
    shouldRetryStep r m ≠ .error e := by
  obtain ⟨pr, hpr⟩ := shouldRetryStep_isOk r m hw
  rw [hpr]
  intro h
  exact Except.noConfusion h

/-! ## Claims -/

/-- Claim C9: the result of `should_retry_step` is independent of its
`max_retries` argument — the decision is a function of the
`VerificationResult` alone (the parameter is never read in the body). -/
theorem shouldRetryStep_independent_of_maxRetries
    (r : VerificationResult) (m1 m2 : ℕ) :
    shouldRetryStep r m1 = shouldRetryStep r m2 := rfl

/-- Claim C3: `should_retry_step` returns `should_retry = false` exactly on
`success = true`, in which case the reason is exactly
`"Step verified successfully"` regardless of confidence or reasoning text;
for every well-typed result with `success = false` (any confidence,
reasoning, or string-valued `suggested_next_action` — including confidence
0.95 with reasoning "looks fine") it returns `should_retry = true` through
the fixed priority chain ending in the default retry rule. -/
theorem shouldRetryStep_retry_iff (r : VerificationResult) (m : ℕ)
    (hw : SuggestedWellTyped r) :
    (r.success = true →
      shouldRetryStep r m = .ok (false, "Step verified successfully".data)) ∧
    ((∃ s, shouldRetryStep r m = .ok (false, s)) ↔ r.success = true) ∧
    (r.success = false → ∃ why, shouldRetryStep r m = .ok (true, why)) := by
  refine ⟨fun h => shouldRetryStep_of_success r m h, ⟨?_, ?_⟩,
    fun h => shouldRetryStep_of_failure r m h hw⟩
  · rintro ⟨s, hs⟩
    cases hsucc : r.success
    · obtain ⟨why, h⟩ := shouldRetryStep_of_failure r m hsucc hw
      rw [h] at hs
      simp at hs
    · rfl
  · intro h
    exact ⟨_, shouldRetryStep_of_success r m h⟩

/-- A failing verification result with high confidence and innocuous
reasoning, exercising the default retry rule. -/
def vrLooksFine : VerificationResult :=
  { success := false, confidence := mkRat 19 20, reasoning := "looks fine".data }

/-- Witness for C3: at `success = false`, confidence 0.95, reasoning
"looks fine", the policy still retries. -/
theorem shouldRetryStep_retry_iff_witness :
    vrLooksFine.success = false ∧
    (∃ why, shouldRetryStep vrLooksFine 3 = .ok (true, why)) :=
  ⟨rfl, (shouldRetryStep_retry_iff vrLooksFine 3
    (fun kvs h => nomatch h)).2.2 rfl⟩

/-- Claim C5: for any call of `verify_step` whose `action_type` matches a
simple action (wait/delay/sleep), the function returns immediately with
`success = true`, confidence 1.0, `should_retry = false` and an empty
screenshot path — for every environment, so no screenshot is captured and
no model call is consulted. -/
theorem verifyStep_fast_path (sd at_ ad rd ut : List Char)
    (ca : Option (List Json)) (env : VerifyEnv)
    (h : simpleActionHit at_ = true) :
    verifyStep sd at_ ad rd ut ca env = .ok simpleResult ∧
    simpleResult.success = true ∧ simpleResult.confidence = 1 ∧
    simpleResult.should_retry = false ∧ simpleResult.screenshot_path = some [] := by
  refine ⟨?_, rfl, rfl, rfl, rfl⟩
  simp [verifyStep, h]

/-- A concrete environment whose validation oracle reports failure; used to
instantiate universally quantified environments in witnesses. -/
def envFail : VerifyEnv :=
  { screenshot := []
    validation := { success := false, confidence := 0, reasoning := "no effect seen".data }
    analysisBeh := .reply "\x7b\"task_completed\": false\x7d".data }

/-- Witness for C5: action type `"wait"` takes the fast path. -/
theorem verifyStep_fast_path_witness :
    verifyStep "pause briefly".data "wait".data "wait 2s".data "run".data
      "send the email".data (some [.null]) envFail = .ok simpleResult ∧
    simpleResult.success = true ∧ simpleResult.confidence = 1 ∧
    simpleResult.should_retry = false ∧ simpleResult.screenshot_path = some [] :=
  verifyStep_fast_path _ _ _ _ _ _ envFail (by decide)

/-- Claim C10: the fast path triggers on substring containment, not exact
match — any `action_type` whose lowercase form contains `wait`, `delay` or
`sleep` anywhere (e.g. `await_response`, `Waiter`) skips verification
entirely and returns the immediate success result, whatever the
environment. -/
theorem verifyStep_fast_path_substring (sd ad rd ut : List Char)
    (ca : Option (List Json)) (env : VerifyEnv) (t : List Char)
    (h : hasSubstr "wait".data (lowerStr t) = true ∨
         hasSubstr "delay".data (lowerStr t) = true ∨
         hasSubstr "sleep".data (lowerStr t) = true) :
    verifyStep sd t ad rd ut ca env = .ok simpleResult := by
  have hit : simpleActionHit t = true := by
    unfold simpleActionHit simpleActions
    rcases h with h | h | h <;> simp [h]
  simp [verifyStep, hit]

/-- Witness for C10: `"await_response"` and `"Waiter"` both contain `wait`
after lowering and are treated as simple actions. -/
theorem verifyStep_fast_path_substring_witness :
    verifyStep "collect reply".data "await_response".data "waiting".data
      "run".data [] none envFail = .ok simpleResult ∧
    verifyStep "serve".data "Waiter".data "serve table".data
      "run".data [] none envFail = .ok simpleResult :=
  ⟨verifyStep_fast_path_substring _ _ _ _ _ envFail _ (Or.inl (by decide)),
   verifyStep_fast_path_substring _ _ _ _ _ envFail _ (Or.inl (by decide))⟩

/-- Six completed actions, to cross the `> 5` threshold. -/
def sixActions : List Json := [.null, .null, .null, .null, .null, .null]

/-- Counterexample to C4 as stated: with an empty `user_task`, a failed
verification and six completed actions, `verify_step` does not run the
State Analyzer and attaches no `plan_update` — the truthiness of
`user_task` (and of `completed_actions`) is a further precondition. -/
theorem verifyStep_analysis_counterexample :
    envFail.validation.success = false ∧ sixActions.length > 5 ∧
    Except.map VerificationResult.plan_update
      (verifyStep "click submit".data "click".data "clicked".data "run".data
        [] (some sixActions) envFail) = .ok none := by
  refine ⟨rfl, by decide, rfl⟩

/-- Claim C4 (amended): when `user_task` is nonempty, `completed_actions`
is a nonempty list, the action type is not a fast-path simple action, and
the validation result is well typed (its `suggested_next_action`, if any,
is a string), then whenever the verification failed or more than 5 actions
have completed, the State Analyzer is run and its report is attached to the
returned result as `plan_update`. -/
theorem verifyStep_attaches_analysis (sd at_ ad rd ut : List Char)
    (ca : List Json) (env : VerifyEnv)
    (hut : ut ≠ []) (hca : ca ≠ [])
    (hsimple : simpleActionHit at_ = false)
    (hw : SuggestedWellTyped env.validation)
    (hcond : env.validation.success = false ∨ ca.length > 5) :
    Except.map VerificationResult.plan_update
      (verifyStep sd at_ ad rd ut (some ca) env)
      = .ok (some (performStateAnalysis env.analysisBeh)) := by
  have hguard : (!ut.isEmpty && truthyActions (some ca) &&
      (!env.validation.success ||
        decide (((some ca : Option (List Json)).getD []).length > 5))) = true := by
    simp only [truthyActions, Bool.and_eq_true, Bool.or_eq_true, Bool.not_eq_true']
    refine ⟨⟨?_, ?_⟩, ?_⟩
    · simpa [List.isEmpty_iff] using hut
    · simpa [List.isEmpty_iff] using hca
    · rcases hcond with h | h
      · exact Or.inl h
      · exact Or.inr (by simpa using h)
  unfold verifyStep
  rw [hsimple]
  simp only [Bool.false_eq_true, if_false]
  rw [hguard]
  simp only [if_true]
  split
  · next e heq => exact absurd heq (shouldRetryStep_ne_error _ 3 e (fun kvs h => hw kvs h))
  · next sr rr heq => rfl

/-- Witness for C4 (amended): failed validation, nonempty task and one
completed action attach the degraded-free analysis report. -/
theorem verifyStep_attaches_analysis_witness :
    Except.map VerificationResult.plan_update
      (verifyStep "click submit".data "click".data "clicked".data "run".data
        "send the email".data (some [.null]) envFail)
      = .ok (some (performStateAnalysis envFail.analysisBeh)) :=
  verifyStep_attaches_analysis _ _ _ _ _ _ envFail
    (by simp) (by simp) (by decide) (fun kvs h => nomatch h) (Or.inl rfl)

/-- The model behaviours under which the State Analyzer fails: a raised
transport error, an empty (or whitespace-only) response, or an unparseable
response. -/
def AnalysisFailure : LLMBehaviour → Prop
  | .raise _ => True
  | .reply s => pyStrip s = [] ∨ ∃ e, pyJsonLoads s = .error e

/-- Claim C8: whenever state analysis fails (model error, empty response,
or unparseable output), `_perform_state_analysis` returns the fixed
degraded report — with `task_completed = false`, `plan_update_needed =
true` and an error entry recorded under `obstacles` — instead of raising
(the function is total by construction). -/
theorem stateAnalysis_degraded_on_failure (beh : LLMBehaviour)
    (h : AnalysisFailure beh) :
    ∃ m, performStateAnalysis beh = degradedReport m ∧
      objLookup (performStateAnalysis beh) "task_completed".data
        = some (.bool false) ∧
      objLookup (performStateAnalysis beh) "plan_update_needed".data
        = some (.bool true) ∧
      objLookup (performStateAnalysis beh) "obstacles".data
        = some (.arr [.str "Analysis error".data]) := by
  cases beh with
  | raise m => exact ⟨m, rfl, rfl, rfl, rfl⟩
  | reply s =>
    by_cases hps : pyStrip s = []
    · have hr : performStateAnalysis (.reply s)
          = degradedReport "Empty response from LLM".data := by
        simp [performStateAnalysis, callLLM, hps, errStr]
      exact ⟨_, hr, by rw [hr]; rfl, by rw [hr]; rfl, by rw [hr]; rfl⟩
    · rcases h with hempty | ⟨e, herr⟩
      · exact absurd hempty hps
      · have hr : performStateAnalysis (.reply s) = degradedReport (errStr e) := by
          simp [performStateAnalysis, callLLM, hps, herr]
        exact ⟨_, hr, by rw [hr]; rfl, by rw [hr]; rfl, by rw [hr]; rfl⟩

/-- Witness for C8: a raised model error produces the degraded report. -/
theorem stateAnalysis_degraded_on_failure_witness :
    ∃ m, performStateAnalysis (.raise "connection reset".data) = degradedReport m ∧
      objLookup (performStateAnalysis (.raise "connection reset".data))
        "task_completed".data = some (.bool false) ∧
      objLookup (performStateAnalysis (.raise "connection reset".data))
        "plan_update_needed".data = some (.bool true) ∧
      objLookup (performStateAnalysis (.raise "connection reset".data))
        "obstacles".data = some (.arr [.str "Analysis error".data]) :=
  stateAnalysis_degraded_on_failure _ trivial

/-- The model behaviours enumerated by claim C2: a raised transport
exception, an empty (or whitespace-only) response, or a response that is
not valid JSON even after repair.  The last two are exactly the cases where
clean-then-parse raises. -/
def PlanFailureBehaviour : LLMBehaviour → Prop
  | .raise _ => True
  | .reply s => ∃ e, (cleanJsonResponse s).bind pyJsonLoads = .error e

/-- Claim C2: for every `PlanningContext` and every failing model
behaviour (empty response, response unparseable even after repair, or a
raised transport exception), `generate_plan` returns — it is total by
construction, never raising to its caller — the fallback
`ActionPlan(reasoning="Error in planning: ...", actions=[], confidence=0.0)`,
whose confidence lies in `[0,1]` and whose `actions` is a (empty) list. -/
theorem generatePlan_failure_fallback (ctx : PlanningContext)
    (beh : LLMBehaviour) (h : PlanFailureBehaviour beh) :
    ∃ e, generatePlan ctx beh = planFallback e ∧
      (generatePlan ctx beh).reasoning
        = .str ("Error in planning: ".data ++ errStr e) ∧
      (generatePlan ctx beh).actions = .arr [] ∧
      (generatePlan ctx beh).confidence = .num 0 ∧
      (∃ q, (generatePlan ctx beh).confidence = .num q ∧ 0 ≤ q ∧ q ≤ 1) := by
  have main : ∃ e, generatePlan ctx beh = planFallback e := by
    cases beh with
    | raise m => exact ⟨.generic m, rfl⟩
    | reply s =>
      obtain ⟨e, hbind⟩ := h
      cases hc : cleanJsonResponse s with
      | error ec =>
          refine ⟨ec, ?_⟩
          simp [generatePlan, generatePlan.gpTry, callLLM, hc]
      | ok c =>
          have hloads : pyJsonLoads c = .error e := by
            rw [hc] at hbind
            simpa [Except.bind] using hbind
          refine ⟨.valueError ("Invalid JSON response: ".data ++ errStr e), ?_⟩
          simp [generatePlan, generatePlan.gpTry, callLLM, hc, hloads]
  obtain ⟨e, he⟩ := main
  refine ⟨e, he, by rw [he]; rfl, by rw [he]; rfl, by rw [he]; rfl, 0, by rw [he]; rfl,
    le_refl 0, by norm_num⟩

/-- A minimal planning context. -/
def ctxPlain : PlanningContext :=
  { task := "submit the form".data, uiGraph := [] }

/-- Witness for C2: a raised transport error yields the fallback plan. -/
theorem generatePlan_failure_fallback_witness :
    ∃ e, generatePlan ctxPlain (.raise "API Error".data) = planFallback e ∧
      (generatePlan ctxPlain (.raise "API Error".data)).reasoning
        = .str ("Error in planning: ".data ++ errStr e) ∧
      (generatePlan ctxPlain (.raise "API Error".data)).actions = .arr [] ∧
      (generatePlan ctxPlain (.raise "API Error".data)).confidence = .num 0 ∧
      (∃ q, (generatePlan ctxPlain (.raise "API Error".data)).confidence = .num q ∧
        0 ≤ q ∧ q ≤ 1) :=
  generatePlan_failure_fallback ctxPlain (.raise "API Error".data) trivial

/-- The behaviours on which `recover_from_error`'s success path cannot
complete: a raised transport error, or a response whose repaired text does
not parse to a JSON object (either parsing fails, or it parses to a
non-object, on which the `.get` extraction raises `AttributeError`). -/
def RecoveryNotObj : LLMBehaviour → Prop
  | .raise _ => True
  | .reply s => ∀ kvs, (cleanJsonResponse s).bind pyJsonLoads ≠ .ok (.obj kvs)

/-- A planning context with a truthy `error_context`. -/
def ctxRecovery : PlanningContext :=
  { task := "submit the form".data
    uiGraph := []
    errorContext := some [("failed_action".data, .str "click(submit)".data)] }

/-- Counterexample to C6 as stated: with `error_context` present and the
model reply `"5"`, the repaired response parses (to the number 5), yet the
returned plan has confidence 0.0, not the claimed 0.7 — the `.get`
extraction on the non-object payload raises and the outer handler returns
the zero-confidence fallback. -/
theorem recoverFromError_parse_counterexample :
    (cleanJsonResponse "5".data).bind pyJsonLoads = .ok (.num 5) ∧
    (recoverFromError ctxRecovery (.reply "5".data)).confidence = .num 0 ∧
    (recoverFromError ctxRecovery (.reply "5".data)).confidence ≠ .num (mkRat 7 10) := by
  refine ⟨rfl, rfl, ?_⟩
  have h0 : (recoverFromError ctxRecovery (.reply "5".data)).confidence = .num 0 := rfl
  rw [h0]
  intro hcontra
  have : (0 : ℚ) = mkRat 7 10 := Json.num.inj hcontra
  norm_num [Rat.mkRat_eq_div] at this

/-- Claim C6 (amended): `recover_from_error` behaves exactly as
`generate_plan` when `error_context` is absent; when `error_context` is
truthy and the model response, after repair, parses to a JSON object, the
returned plan's confidence is exactly 0.7 (never the model-supplied value)
and its metadata is `{is_recovery: true}`; and on any failure (transport
error, or a response that does not parse to an object) it never raises —
it is total by construction — and returns a plan with confidence 0.0. -/
theorem recoverFromError_spec (ctx : PlanningContext) (beh : LLMBehaviour) :
    (ctx.errorContext = none → recoverFromError ctx beh = generatePlan ctx beh) ∧
    (∀ ec s kvs, ctx.errorContext = some ec → ec ≠ [] → beh = .reply s →
      (cleanJsonResponse s).bind pyJsonLoads = .ok (.obj kvs) →
      (recoverFromError ctx beh).confidence = .num (mkRat 7 10) ∧
      (recoverFromError ctx beh).metadata
        = some (.obj [("is_recovery".data, .bool true)])) ∧
    (truthyErrorContext ctx.errorContext = true → RecoveryNotObj beh →
      (recoverFromError ctx beh).confidence = .num 0) := by
  refine ⟨?_, ?_, ?_⟩
  · intro h
    simp [recoverFromError, truthyErrorContext, h]
  · intro ec s kvs hec hne hbeh hpipe
    subst hbeh
    have htc : truthyErrorContext ctx.errorContext = true := by
      rw [hec]
      simpa [truthyErrorContext, List.isEmpty_iff] using hne
    have hr : recoverFromError ctx (.reply s)
        = { reasoning := (lookupLast kvs "recovery_strategy".data).getD (.str [])
            actions := (lookupLast kvs "actions".data).getD (.arr [])
            confidence := .num (mkRat 7 10)
            metadata := some (.obj [("is_recovery".data, .bool true)]) } := by
      simp [recoverFromError, recoverFromError.reTry, callLLM, htc, hpipe, pyDictGet]
    rw [hr]
    exact ⟨rfl, rfl⟩
  · intro htc hnotobj
    cases beh with
    | raise m =>
        simp [recoverFromError, recoverFromError.reTry, callLLM, htc, recoveryFallback]
    | reply s =>
        cases hpipe : (cleanJsonResponse s).bind pyJsonLoads with
        | error e =>
            simp [recoverFromError, recoverFromError.reTry, callLLM, htc, hpipe,
              recoveryFallback]
        | ok j =>
            cases j with
            | obj kvs => exact absurd hpipe (hnotobj kvs)
            | null =>
                simp [recoverFromError, recoverFromError.reTry, callLLM, htc, hpipe,
                  pyDictGet, recoveryFallback]
            | bool b =>
                simp [recoverFromError, recoverFromError.reTry, callLLM, htc, hpipe,
                  pyDictGet, recoveryFallback]
            | num q =>
                simp [recoverFromError, recoverFromError.reTry, callLLM, htc, hpipe,
                  pyDictGet, recoveryFallback]
            | str t =>
                simp [recoverFromError, recoverFromError.reTry, callLLM, htc, hpipe,
                  pyDictGet, recoveryFallback]
            | arr xs =>
                simp [recoverFromError, recoverFromError.reTry, callLLM, htc, hpipe,
                  pyDictGet, recoveryFallback]

/-- A recovery reply that parses to an object. -/
def replyRecovery : List Char :=
  "\x7b\"recovery_strategy\": \"retry with keyboard\", \"actions\": []\x7d".data

/-- Witness for C6 (amended): all three parts at concrete inputs — absent
`error_context` degrades to `generate_plan`; an object-parsing reply gives
confidence 0.7 and the recovery tag; a transport error gives confidence
0.0. -/
theorem recoverFromError_spec_witness :
    recoverFromError ctxPlain (.reply "x".data)
      = generatePlan ctxPlain (.reply "x".data) ∧
    (recoverFromError ctxRecovery (.reply replyRecovery)).confidence
      = .num (mkRat 7 10) ∧
    (recoverFromError ctxRecovery (.reply replyRecovery)).metadata
      = some (.obj [("is_recovery".data, .bool true)]) ∧
    (recoverFromError ctxRecovery (.raise "boom".data)).confidence = .num 0 := by
  have h1 := (recoverFromError_spec ctxPlain (.reply "x".data)).1 rfl
  have h2 := (recoverFromError_spec ctxRecovery (.reply replyRecovery)).2.1
    [("failed_action".data, .str "click(submit)".data)] replyRecovery
    [("recovery_strategy".data, .str "retry with keyboard".data),
     ("actions".data, .arr [])]
    rfl (by simp) rfl rfl
  have h3 := (recoverFromError_spec ctxRecovery (.raise "boom".data)).2.2 rfl trivial
  exact ⟨h1, h2.1, h2.2, h3⟩

/-! ## Line-comment stripping is quote-blind (C1) -/

theorem hasChar_cons {c x : Char} {r : List Char} (h : hasChar c (x :: r) = false) :
    ¬(x = c) ∧ hasChar c r = false := by
  simp only [hasChar, List.any_cons, Bool.or_eq_false_iff,
    decide_eq_false_iff_not] at h
  exact ⟨h.1, h.2⟩

theorem slcAux_false_step (c : Char) (r : List Char)
    (h : ¬(c = '/' ∧ headIs '/' r = true)) :
    slcAux false (c :: r) = c :: slcAux false r := by
  simp only [slcAux]
  rw [if_neg (by simp only [Bool.and_eq_true, decide_eq_true_eq]; exact h)]

theorem slcAux_skip (b : List Char) (hb : hasChar '\n' b = false) :
    slcAux true b = [] := by
  induction b with
  | nil => rfl
  | cons c r ih =>
      obtain ⟨h1, h2⟩ := hasChar_cons hb
      simp only [slcAux]
      rw [if_neg h1]
      exact ih h2

theorem slcAux_comment_tail (b : List Char) (hb : hasChar '\n' b = false) :
    slcAux false ('/' :: '/' :: b) = [] := by
  have hb' : hasChar '\n' ('/' :: b) = false := by
    simp only [hasChar, List.any_cons, Bool.or_eq_false_iff]
    exact ⟨by decide, hb⟩
  exact slcAux_skip ('/' :: b) hb'

/-- Counterexample to C1 as stated: on the line `{"url": "http://x"}` the
`//` inside the double-quoted string value is not preserved verbatim — the
`//`-removal step of the repair parser truncates the line at the `//`. -/
theorem stripLineComments_counterexample :
    stripLineComments "\x7b\"url\": \"http://x\"\x7d".data
      ≠ "\x7b\"url\": \"http://x\"\x7d".data ∧
    stripLineComments "\x7b\"url\": \"http://x\"\x7d".data
      = "\x7b\"url\": \"http:".data :=
  ⟨by decide, by decide⟩

/-- Shared cut lemma: with no earlier `//` in `a` (and `a` not ending in
`/`), the scan truncates at the appended `//` and drops the newline-free
remainder. -/
theorem slc_cut_comment (a b : List Char)
    (ha : hasPair '/' '/' a = false) (ha2 : endsChar '/' a = false)
    (hb : hasChar '\n' b = false) :
    stripLineComments (a ++ '/' :: '/' :: b) = a := by
  induction a with
  | nil => exact slcAux_comment_tail b hb
  | cons c a' ih =>
      cases a' with
      | nil =>
          have hc : ¬(c = '/') := by simpa [endsChar] using ha2
          show slcAux false (c :: ('/' :: '/' :: b)) = [c]
          rw [slcAux_false_step c _ (fun hh => hc hh.1)]
          rw [slcAux_comment_tail b hb]
      | cons d a'' =>
          have hsplit : ¬(c = '/' ∧ d = '/') ∧ hasPair '/' '/' (d :: a'') = false := by
            cases hp : hasPair '/' '/' (d :: a'') with
            | true =>
                exfalso
                simp only [hasPair, hp, Bool.or_true] at ha
                exact Bool.true_eq_false.mp ha
            | false =>
                refine ⟨?_, rfl⟩
                rintro ⟨h1, h2⟩
                subst h1; subst h2
                simp only [hasPair] at ha
                simp at ha
          have ha2' : endsChar '/' (d :: a'') = false := ha2
          show slcAux false (c :: ((d :: a'') ++ '/' :: '/' :: b)) = c :: (d :: a'')
          rw [slcAux_false_step c _ ?hnc]
          case hnc =>
            rintro ⟨h1, h2⟩
            simp only [List.cons_append, headIs, decide_eq_true_eq] at h2
            exact hsplit.1 ⟨h1, h2⟩
          exact congrArg (c :: ·) (ih hsplit.2 ha2')

/-- Claim C1 (amended): the `//`-line-comment removal step of
`_clean_json_response` is line-local and quote-blind — on each line it
removes everything from the first `//` to the end of the line, with no
tracking of escape state or double-quote parity, so a `//` inside a
double-quoted string value is removed, not preserved.  Concretely: for any
text `a` containing no `//` and not ending in `/` (so the appended `//` is
the first one on its final line) and any line remainder `b` without a
newline, the step maps `a ++ "//" ++ b` to `a`, whether or not the `//`
lies inside an open double-quote region of `a`. -/
theorem stripLineComments_quote_blind (a b : List Char)
    (ha : hasPair '/' '/' a = false) (ha2 : endsChar '/' a = false)
    (hb : hasChar '\n' b = false) :
    stripLineComments (a ++ '/' :: '/' :: b) = a :=
  slc_cut_comment a b ha ha2 hb

/-- Witness for C1 (amended): the quoted-URL line, split at its `//`,
satisfies the hypotheses and is truncated to its prefix. -/
theorem stripLineComments_quote_blind_witness :
    stripLineComments ("\x7b\"url\": \"http:".data ++ '/' :: '/' :: "x\"\x7d".data)
      = "\x7b\"url\": \"http:".data :=
  stripLineComments_quote_blind _ _ (by decide) (by decide) (by decide)

/-! ## Round-trip machinery for the repair parser (C7)

The universal parts of the round-trip property reduce to showing that, on a
decorated text, each pass of `_clean_json_response` either strips exactly
the decoration or leaves the payload unchanged, so that the repaired text
is literally the original one — parse equality then holds for free. -/

theorem hasPair_cons_split {a b x y : Char} {r : List Char}
    (h : hasPair a b (x :: y :: r) = false) :
    ¬(x = a ∧ y = b) ∧ hasPair a b (y :: r) = false := by
  simp only [hasPair, Bool.or_eq_false_iff, Bool.and_eq_false_iff,
    decide_eq_false_iff_not] at h
  refine ⟨fun hh => ?_, h.2⟩
  rcases h.1 with h1 | h1
  · exact h1 hh.1
  · exact h1 hh.2

theorem hasPair_left {a b : Char} (p q : List Char)
    (h : hasPair a b (p ++ q) = false) : hasPair a b p = false := by
  induction p with
  | nil => rfl
  | cons x p' ih =>
      cases p' with
      | nil =>
          cases q with
          | nil => rfl
          | cons y q' =>
              obtain ⟨_, _⟩ := hasPair_cons_split (x := x) (y := y) (r := q') h
              rfl
      | cons x' p'' =>
          obtain ⟨h1, h2⟩ := hasPair_cons_split (x := x) (y := x') h
          simp only [hasPair, Bool.or_eq_false_iff, Bool.and_eq_false_iff,
            decide_eq_false_iff_not]
          constructor
          · by_cases hx : x = a
            · exact Or.inr fun hx' => h1 ⟨hx, hx'⟩
            · exact Or.inl hx
          · exact ih h2

theorem hasPair_append {a b : Char} (p q : List Char)
    (hp : hasPair a b p = false) (hq : hasPair a b q = false)
    (hj : headIs b q = false) : hasPair a b (p ++ q) = false := by
  induction p with
  | nil => simpa using hq
  | cons x p' ih =>
      cases p' with
      | nil =>
          cases q with
          | nil => rfl
          | cons y q' =>
              simp only [List.cons_append, List.nil_append, hasPair,
                Bool.or_eq_false_iff, Bool.and_eq_false_iff,
                decide_eq_false_iff_not]
              refine ⟨Or.inr ?_, hq⟩
              simpa [headIs, decide_eq_false_iff_not] using hj
      | cons x' p'' =>
          obtain ⟨h1, h2⟩ := hasPair_cons_split (x := x) (y := x') hp
          have := ih h2
          simp only [List.cons_append] at this ⊢
          simp only [hasPair, Bool.or_eq_false_iff, Bool.and_eq_false_iff,
            decide_eq_false_iff_not]
          constructor
          · by_cases hx : x = a
            · exact Or.inr fun hx' => h1 ⟨hx, hx'⟩
            · exact Or.inl hx
          · simpa [List.cons_append] using this

theorem hasPair_cons_of {a b x : Char} {m : List Char}
    (h : hasPair a b m = true) : hasPair a b (x :: m) = true := by
  cases m with
  | nil => simp [hasPair] at h
  | cons y r => simp [hasPair, h]

theorem hasPair_marker {a b : Char} (c q : List Char) :
    hasPair a b (c ++ a :: b :: q) = true := by
  induction c with
  | nil => simp [hasPair]
  | cons x c' ih => exact hasPair_cons_of (x := x) (by simpa using ih)

/-- A text with no `//` passes the line-comment step unchanged. -/
theorem stripLineComments_id (l : List Char)
    (h : hasPair '/' '/' l = false) : stripLineComments l = l := by
  induction l with
  | nil => rfl
  | cons c r ih =>
      have hcond : ¬(c = '/' ∧ headIs '/' r = true) := by
        cases r with
        | nil => simp [headIs]
        | cons d r' =>
            obtain ⟨h1, _⟩ := hasPair_cons_split h
            rintro ⟨hc, hd⟩
            exact h1 ⟨hc, by simpa [headIs, decide_eq_true_eq] using hd⟩
      have hr : hasPair '/' '/' r = false := by
        cases r with
        | nil => rfl
        | cons d r' => exact (hasPair_cons_split h).2
      show slcAux false (c :: r) = c :: r
      rw [slcAux_false_step c r hcond]
      exact congrArg (c :: ·) (ih hr)

/-- A text with no `/*` passes the block-comment step unchanged. -/
theorem stripBlockComments_id (l : List Char)
    (h : hasPair '/' '*' l = false) : stripBlockComments l = l := by
  induction l with
  | nil => rfl
  | cons c r ih =>
      have hr : hasPair '/' '*' r = false := by
        cases r with
        | nil => rfl
        | cons d r' => exact (hasPair_cons_split h).2
      have step : sbcAux false (c :: r) = c :: sbcAux false r := by
        apply sbcAux.eq_3
        intro r1 hc hr1
        cases r with
        | nil => cases hr1
        | cons d r' =>
            obtain ⟨h1, _⟩ := hasPair_cons_split h
            exact h1 ⟨hc, (List.cons.inj hr1).1⟩
      show sbcAux false (c :: r) = c :: r
      rw [step]
      exact congrArg (c :: ·) (ih hr)

/-- Inside a block comment with no early `*/`, the scan drops everything up
to the closing marker and resumes after it. -/
theorem sbcAux_skip (c q : List Char) (h : hasPair '*' '/' c = false) :
    sbcAux true (c ++ '*' :: '/' :: q) = sbcAux false q := by
  induction c with
  | nil => rfl
  | cons x c' ih =>
      have step : sbcAux true (x :: (c' ++ '*' :: '/' :: q))
          = sbcAux true (c' ++ '*' :: '/' :: q) := by
        apply sbcAux.eq_5
        intro r1 hx hr1
        cases c' with
        | nil =>
            simp only [List.nil_append] at hr1
            obtain ⟨h1, h2⟩ := List.cons.inj hr1
            exact absurd h1 (by decide)
        | cons y c'' =>
            obtain ⟨h1, _⟩ := hasPair_cons_split h
            exact h1 ⟨hx, (List.cons.inj hr1).1⟩
      rw [List.cons_append, step]
      exact ih (by cases c' with
        | nil => rfl
        | cons y c'' => exact (hasPair_cons_split h).2)

/-- Removing exactly one block comment: the scan copies a `/*`-free prefix,
consumes `/* bc */` (the guard holds because the closing marker is ahead),
and leaves a `/*`-free suffix unchanged. -/
theorem stripBlockComments_remove (p bc q : List Char)
    (hp : hasPair '/' '*' p = false) (hbc : hasPair '*' '/' bc = false)
    (hq : hasPair '/' '*' q = false) :
    stripBlockComments (p ++ '/' :: '*' :: (bc ++ '*' :: '/' :: q)) = p ++ q := by
  induction p with
  | nil =>
      show sbcAux false ('/' :: '*' :: (bc ++ '*' :: '/' :: q)) = q
      rw [sbcAux.eq_2]
      rw [if_pos (hasPair_marker bc q)]
      rw [sbcAux_skip bc q hbc]
      exact stripBlockComments_id q hq
  | cons x p' ih =>
      have step : sbcAux false (x :: (p' ++ '/' :: '*' :: (bc ++ '*' :: '/' :: q)))
          = x :: sbcAux false (p' ++ '/' :: '*' :: (bc ++ '*' :: '/' :: q)) := by
        apply sbcAux.eq_3
        intro r1 hx hr1
        cases p' with
        | nil =>
            simp only [List.nil_append] at hr1
            obtain ⟨h1, _⟩ := List.cons.inj hr1
            exact absurd h1 (by decide)
        | cons y p'' =>
            obtain ⟨h1, _⟩ := hasPair_cons_split hp
            exact h1 ⟨hx, (List.cons.inj hr1).1⟩
      have hp' : hasPair '/' '*' p' = false := by
        cases p' with
        | nil => rfl
        | cons y p'' => exact (hasPair_cons_split hp).2
      show sbcAux false (x :: (p' ++ '/' :: '*' :: (bc ++ '*' :: '/' :: q)))
          = x :: (p' ++ q)
      rw [step]
      exact congrArg (x :: ·) (ih hp')

/-- No occurrence of the trailing-comma pattern `,(\s*[}\]])`: no comma is
followed (modulo whitespace) by a closing brace or bracket. -/
def noTrailPat : List Char → Bool
  | [] => true
  | c :: r => !(c = ',' && commaMatch r) && noTrailPat r

theorem noTrailPat_cons {c : Char} {r : List Char}
    (h : noTrailPat (c :: r) = true) :
    (c = ',' && commaMatch r) = false ∧ noTrailPat r = true := by
  simp only [noTrailPat, Bool.and_eq_true, Bool.not_eq_true'] at h
  exact h

theorem noTrailPat_right (p q : List Char)
    (h : noTrailPat (p ++ q) = true) : noTrailPat q = true := by
  induction p with
  | nil => simpa using h
  | cons c p' ih => exact ih (noTrailPat_cons (by simpa using h)).2

/-- A text without the pattern passes the trailing-comma step unchanged. -/
theorem removeTrailingCommas_id (l : List Char)
    (h : noTrailPat l = true) : removeTrailingCommas l = l := by
  induction l with
  | nil => rfl
  | cons c r ih =>
      obtain ⟨h1, h2⟩ := noTrailPat_cons h
      show rtcAux (c :: r) = c :: r
      rw [rtcAux.eq_2]
      rw [h1]
      simp only [Bool.false_eq_true, if_false]
      exact congrArg (c :: ·) (ih h2)

theorem dropWhile_append_cons {pr : Char → Bool} {l : List Char} {d : Char}
    {d' : List Char} (h : l.dropWhile pr = d :: d') (y : List Char) :
    (l ++ y).dropWhile pr = d :: (d' ++ y) := by
  induction l with
  | nil => simp at h
  | cons x l' ih =>
      by_cases hx : pr x = true
      · rw [List.dropWhile_cons_of_pos hx] at h
        rw [List.cons_append, List.dropWhile_cons_of_pos hx]
        exact ih h
      · rw [List.dropWhile_cons_of_neg hx] at h
        obtain ⟨h1, h2⟩ := List.cons.inj h
        subst h1
        rw [List.cons_append, List.dropWhile_cons_of_neg hx, h2]

theorem dropWhile_append_nil {pr : Char → Bool} {l : List Char}
    (h : l.dropWhile pr = []) (y : List Char) :
    (l ++ y).dropWhile pr = y.dropWhile pr := by
  induction l with
  | nil => rfl
  | cons x l' ih =>
      by_cases hx : pr x = true
      · rw [List.dropWhile_cons_of_pos hx] at h
        rw [List.cons_append, List.dropWhile_cons_of_pos hx]
        exact ih h
      · rw [List.dropWhile_cons_of_neg hx] at h
        simp at h

/-- Inserting one comma directly before a closing brace: the scan copies the
pattern-free prefix, the inserted comma matches (its next character is the
brace) and is deleted, and the remainder is unchanged. -/
theorem removeTrailingCommas_insert (p rest : List Char)
    (h : noTrailPat (p ++ '}' :: rest) = true) :
    removeTrailingCommas (p ++ ',' :: '}' :: rest) = p ++ '}' :: rest := by
  induction p with
  | nil =>
      have hrest : noTrailPat rest = true :=
        (noTrailPat_cons (by simpa using h)).2
      show rtcAux (',' :: '}' :: rest) = '}' :: rest
      rw [rtcAux.eq_2]
      rw [if_pos (by rfl)]
      rw [rtcAux.eq_2]
      rw [if_neg (by simp [commaMatch])]
      exact congrArg ('}' :: ·) (removeTrailingCommas_id rest hrest)
  | cons c p' ih =>
      obtain ⟨h1, h2⟩ := noTrailPat_cons (by simpa using h)
      have ihres := ih h2
      by_cases hc : c = ','
      · subst hc
        have hcm : commaMatch (p' ++ '}' :: rest) = false := by
          simpa using h1
        have hcm2 : commaMatch (p' ++ ',' :: '}' :: rest) = false := by
          cases hd : p'.dropWhile isPyWs with
          | nil =>
              exfalso
              have hcm' : commaMatch (p' ++ '}' :: rest) = true := by
                simp only [commaMatch, dropWhile_append_nil hd]
                rw [List.dropWhile_cons_of_neg (by decide)]
                simp
              rw [hcm'] at hcm
              cases hcm
          | cons d d' =>
              have e1 := dropWhile_append_cons hd (',' :: '}' :: rest)
              have e2 := dropWhile_append_cons hd ('}' :: rest)
              simp only [commaMatch, e1]
              simp only [commaMatch, e2] at hcm
              exact hcm
        show rtcAux (',' :: (p' ++ ',' :: '}' :: rest)) = ',' :: (p' ++ '}' :: rest)
        rw [rtcAux.eq_2]
        rw [if_neg (by simp [hcm2])]
        exact congrArg (',' :: ·) ihres
      · show rtcAux (c :: (p' ++ ',' :: '}' :: rest)) = c :: (p' ++ '}' :: rest)
        rw [rtcAux.eq_2]
        rw [if_neg (by simp [hc])]
        exact congrArg (c :: ·) ihres

theorem reverse_sandwich (x : Char) (m : List Char) (y : Char) :
    (x :: m ++ [y]).reverse = y :: (m.reverse ++ [x]) := by simp

theorem pyStrip_sandwich (x : Char) (m : List Char) (y : Char)
    (hx : isPyWs x = false) (hy : isPyWs y = false) :
    pyStrip (x :: m ++ [y]) = x :: m ++ [y] := by
  have hx' : ¬(isPyWs x = true) := by simp [hx]
  have hy' : ¬(isPyWs y = true) := by simp [hy]
  unfold pyStrip
  rw [List.cons_append]
  rw [List.dropWhile_cons_of_neg hx']
  rw [show (x :: (m ++ [y])).reverse = y :: (m.reverse ++ [x]) by simp]
  rw [List.dropWhile_cons_of_neg hy']
  rw [show (y :: (m.reverse ++ [x])).reverse = x :: (m ++ [y]) by simp]

theorem pyStrip_nl_sandwich (x : Char) (m : List Char) (y : Char)
    (hx : isPyWs x = false) (hy : isPyWs y = false) :
    pyStrip ('\n' :: ((x :: m ++ [y]) ++ ['\n'])) = x :: m ++ [y] := by
  have hx' : ¬(isPyWs x = true) := by simp [hx]
  have hy' : ¬(isPyWs y = true) := by simp [hy]
  have hnl : isPyWs '\n' = true := by decide
  unfold pyStrip
  rw [List.dropWhile_cons_of_pos hnl]
  rw [show (x :: m ++ [y]) ++ ['\n'] = x :: (m ++ [y] ++ ['\n']) by simp]
  rw [List.dropWhile_cons_of_neg hx']
  rw [show (x :: (m ++ [y] ++ ['\n'])).reverse = '\n' :: (y :: (m.reverse ++ [x])) by simp]
  rw [List.dropWhile_cons_of_pos hnl]
  rw [List.dropWhile_cons_of_neg hy']
  rw [show (y :: (m.reverse ++ [x])).reverse = x :: m ++ [y] by simp]

theorem length_dropWhile_le_pyws (l : List Char) :
    (l.dropWhile isPyWs).length ≤ l.length := by
  induction l with
  | nil => simp
  | cons a l' ihl =>
      by_cases ha : isPyWs a = true
      · rw [List.dropWhile_cons_of_pos ha]
        exact le_trans ihl (by simp)
      · rw [List.dropWhile_cons_of_neg ha]

theorem head_not_ws_of_dropWhile_id {d : Char} {l : List Char}
    (h : (d :: l).dropWhile isPyWs = d :: l) : isPyWs d = false := by
  by_cases hd : isPyWs d = true
  · rw [List.dropWhile_cons_of_pos hd] at h
    have hlen := congrArg List.length h
    have hle := length_dropWhile_le_pyws l
    simp at hlen
    omega
  · simpa using hd

theorem dropWhile_id_append {l y : List Char}
    (hl : l.dropWhile isPyWs = l) (hy : y.dropWhile isPyWs = y) :
    (l ++ y).dropWhile isPyWs = l ++ y := by
  cases l with
  | nil => simpa using hy
  | cons d l' =>
      have hd := head_not_ws_of_dropWhile_id hl
      rw [List.cons_append, List.dropWhile_cons_of_neg (by simp [hd])]

/-- The fence stripper leaves a text alone when it starts with neither fence
marker and does not end in a backtick. -/
theorem stripFences_sandwich (x : Char) (m : List Char) (y : Char)
    (hx7 : startsList "```json".data (x :: m ++ [y]) = false)
    (hx3 : startsList "```".data (x :: m ++ [y]) = false)
    (hy : ¬(y = '`')) : stripFences (x :: m ++ [y]) = x :: m ++ [y] := by
  unfold stripFences
  rw [hx7]
  simp only [Bool.false_eq_true, if_false]
  rw [hx3]
  simp only [Bool.false_eq_true, if_false]
  rw [show endsList "```".data (x :: m ++ [y]) = false from ?hend]
  case hend =>
    unfold endsList
    rw [reverse_sandwich]
    have : decide ('`' = y) = false := decide_eq_false (fun hh => hy hh.symm)
    simp [startsList, this]
  simp only [Bool.false_eq_true, if_false]

/-- `` ```json\n``...``\n``` `` fencing, as a character list. -/
def fenceWrap (t : List Char) : List Char :=
  '`' :: '`' :: '`' :: 'j' :: 's' :: 'o' :: 'n' :: '\n' ::
    (t ++ '\n' :: '`' :: '`' :: '`' :: [])

theorem stripFences_fence (t : List Char) :
    stripFences (fenceWrap t) = '\n' :: (t ++ ['\n']) := by
  unfold stripFences fenceWrap
  rw [show startsList "```json".data
      ('`' :: '`' :: '`' :: 'j' :: 's' :: 'o' :: 'n' :: '\n' ::
        (t ++ '\n' :: '`' :: '`' :: '`' :: [])) = true from rfl]
  simp only [if_true]
  rw [show ('`' :: '`' :: '`' :: 'j' :: 's' :: 'o' :: 'n' :: '\n' ::
      (t ++ '\n' :: '`' :: '`' :: '`' :: [])).drop 7
      = '\n' :: (t ++ '\n' :: '`' :: '`' :: '`' :: []) from rfl]
  rw [show startsList "```".data
      ('\n' :: (t ++ '\n' :: '`' :: '`' :: '`' :: [])) = false from rfl]
  simp only [Bool.false_eq_true, if_false]
  have hrev : ('\n' :: (t ++ '\n' :: '`' :: '`' :: '`' :: [])).reverse
      = '`' :: '`' :: '`' :: '\n' :: (t.reverse ++ ['\n']) := by simp
  rw [show endsList "```".data
      ('\n' :: (t ++ '\n' :: '`' :: '`' :: '`' :: [])) = true from ?hend]
  case hend =>
    unfold endsList
    rw [hrev]
    rfl
  simp only [if_true]
  rw [hrev]
  rw [show ('`' :: '`' :: '`' :: '\n' :: (t.reverse ++ ['\n'])).drop 3
      = '\n' :: (t.reverse ++ ['\n']) from rfl]
  simp

theorem extractBraces_sandwich (x : List Char) :
    extractBraces ('{' :: x ++ ['}']) = '{' :: x ++ ['}'] := by
  unfold extractBraces
  rw [show firstIdxOf '{' ('{' :: x ++ ['}']) = some 0 by simp [firstIdxOf]]
  rw [reverse_sandwich]
  rw [show firstIdxOf '}' ('}' :: (x.reverse ++ ['{'])) = some 0 by simp [firstIdxOf]]
  have hlen : ('{' :: x ++ ['}']).length = x.length + 2 := by simp
  simp only [hlen]
  rw [if_pos (by omega)]
  rw [show x.length + 2 - 1 - 0 - 0 + 1 = x.length + 2 by omega]
  rw [List.drop_zero]
  rw [← hlen, List.take_length]

theorem pyStrip_eq_self {l : List Char}
    (h1 : l.dropWhile isPyWs = l)
    (h2 : l.reverse.dropWhile isPyWs = l.reverse) : pyStrip l = l := by
  unfold pyStrip
  rw [h1, h2, List.reverse_reverse]

theorem startsList_ticks_false (y : Char) (ys : List Char) (hy : ¬(y = '`')) :
    startsList "```".data (y :: ys) = false := by
  have hd : decide ('`' = y) = false := decide_eq_false fun hh => hy hh.symm
  simp [startsList, hd]

theorem endsChar_append_singleton (ch y : Char) (l : List Char) :
    endsChar ch (l ++ [y]) = decide (y = ch) := by
  induction l with
  | nil => simp [endsChar]
  | cons a l' ih =>
      cases l' with
      | nil => simp [endsChar]
      | cons b l'' => exact ih

/-- The repair chain after the second strip leaves an undecorated
brace-delimited text unchanged. -/
theorem repair_payload (mid : List Char)
    (hSS : hasPair '/' '/' ('{' :: mid ++ ['}']) = false)
    (hOpen : hasPair '/' '*' ('{' :: mid ++ ['}']) = false)
    (hTrail : noTrailPat ('{' :: mid ++ ['}']) = true) :
    extractBraces (removeTrailingCommas (stripBlockComments (stripLineComments
      ('{' :: mid ++ ['}'])))) = '{' :: mid ++ ['}'] := by
  rw [stripLineComments_id _ hSS, stripBlockComments_id _ hOpen,
    removeTrailingCommas_id _ hTrail, extractBraces_sandwich]

/-- Repairing the undecorated text returns it unchanged. -/
theorem clean_plain (mid : List Char)
    (hSS : hasPair '/' '/' ('{' :: mid ++ ['}']) = false)
    (hOpen : hasPair '/' '*' ('{' :: mid ++ ['}']) = false)
    (hTrail : noTrailPat ('{' :: mid ++ ['}']) = true) :
    cleanJsonResponse ('{' :: mid ++ ['}']) = .ok ('{' :: mid ++ ['}']) := by
  have hstrip : pyStrip ('{' :: mid ++ ['}']) = '{' :: mid ++ ['}'] :=
    pyStrip_sandwich '{' mid '}' (by decide) (by decide)
  have hfence : stripFences ('{' :: mid ++ ['}']) = '{' :: mid ++ ['}'] :=
    stripFences_sandwich '{' mid '}' (by rfl) (by rfl) (by decide)
  unfold cleanJsonResponse
  rw [hstrip]
  rw [if_neg (by simp)]
  unfold repairBody
  rw [hfence, hstrip]
  exact congrArg Except.ok (repair_payload mid hSS hOpen hTrail)

/-- Repairing the fence-wrapped text returns the original text. -/
theorem clean_fence (mid : List Char)
    (hSS : hasPair '/' '/' ('{' :: mid ++ ['}']) = false)
    (hOpen : hasPair '/' '*' ('{' :: mid ++ ['}']) = false)
    (hTrail : noTrailPat ('{' :: mid ++ ['}']) = true) :
    cleanJsonResponse (fenceWrap ('{' :: mid ++ ['}'])) = .ok ('{' :: mid ++ ['}']) := by
  have hshape : fenceWrap ('{' :: mid ++ ['}'])
      = '`' :: ('`' :: '`' :: 'j' :: 's' :: 'o' :: 'n' :: '\n' ::
          (('{' :: mid ++ ['}']) ++ ['\n', '`', '`'])) ++ ['`'] := by
    simp [fenceWrap]
  have hstripF : pyStrip (fenceWrap ('{' :: mid ++ ['}']))
      = fenceWrap ('{' :: mid ++ ['}']) := by
    rw [hshape]
    exact pyStrip_sandwich _ _ _ (by decide) (by decide)
  unfold cleanJsonResponse
  rw [hstripF]
  rw [if_neg (by simp [fenceWrap])]
  unfold repairBody
  rw [stripFences_fence]
  rw [pyStrip_nl_sandwich '{' mid '}' (by decide) (by decide)]
  exact congrArg Except.ok (repair_payload mid hSS hOpen hTrail)

/-- Repairing the text with a `//`-comment appended to its last line
returns the original text. -/
theorem clean_line_comment (mid c : List Char)
    (hSS : hasPair '/' '/' ('{' :: mid ++ ['}']) = false)
    (hOpen : hasPair '/' '*' ('{' :: mid ++ ['}']) = false)
    (hTrail : noTrailPat ('{' :: mid ++ ['}']) = true)
    (hcNl : hasChar '\n' c = false) (hcTick : hasChar '`' c = false)
    (hcTrim : c.reverse.dropWhile isPyWs = c.reverse) :
    cleanJsonResponse (('{' :: mid ++ ['}']) ++ '/' :: '/' :: c)
      = .ok ('{' :: mid ++ ['}']) := by
  have h1 : (('{' :: mid ++ ['}']) ++ '/' :: '/' :: c).dropWhile isPyWs
      = ('{' :: mid ++ ['}']) ++ '/' :: '/' :: c := by
    rw [show ('{' :: mid ++ ['}']) ++ '/' :: '/' :: c
        = '{' :: ((mid ++ ['}']) ++ '/' :: '/' :: c) from by simp]
    exact List.dropWhile_cons_of_neg (by decide)
  have hrev2 : (('{' :: mid ++ ['}']) ++ '/' :: '/' :: c).reverse
      = c.reverse ++ ('/' :: '/' :: ('{' :: mid ++ ['}']).reverse) := by
    simp
  have h2 : (('{' :: mid ++ ['}']) ++ '/' :: '/' :: c).reverse.dropWhile isPyWs
      = (('{' :: mid ++ ['}']) ++ '/' :: '/' :: c).reverse := by
    rw [hrev2]
    exact dropWhile_id_append hcTrim (List.dropWhile_cons_of_neg (by decide))
  have hstrip2 : pyStrip (('{' :: mid ++ ['}']) ++ '/' :: '/' :: c)
      = ('{' :: mid ++ ['}']) ++ '/' :: '/' :: c := pyStrip_eq_self h1 h2
  have hends : endsList "```".data (('{' :: mid ++ ['}']) ++ '/' :: '/' :: c)
      = false := by
    unfold endsList
    rw [show ("```".data.reverse) = "```".data from rfl]
    rw [hrev2]
    cases hc' : c.reverse with
    | nil =>
        simp only [List.nil_append]
        exact startsList_ticks_false '/' _ (by decide)
    | cons y ys =>
        have hmem : y ∈ c := by
          have hin : y ∈ c.reverse := by
            rw [hc']
            exact List.mem_cons_self y ys
          simpa [List.mem_reverse] using hin
        have hall : ∀ x ∈ c, ¬(x = '`') := by
          simpa [hasChar, List.any_eq_false] using hcTick
        rw [List.cons_append]
        exact startsList_ticks_false y _ (hall y hmem)
  have hfence2 : stripFences (('{' :: mid ++ ['}']) ++ '/' :: '/' :: c)
      = ('{' :: mid ++ ['}']) ++ '/' :: '/' :: c := by
    unfold stripFences
    rw [show startsList "```json".data
        (('{' :: mid ++ ['}']) ++ '/' :: '/' :: c) = false from rfl]
    simp only [Bool.false_eq_true, if_false]
    rw [show startsList "```".data
        (('{' :: mid ++ ['}']) ++ '/' :: '/' :: c) = false from rfl]
    simp only [Bool.false_eq_true, if_false]
    rw [hends]
    simp only [Bool.false_eq_true, if_false]
  have hend2 : endsChar '/' ('{' :: mid ++ ['}']) = false := by
    rw [show ('{' :: mid ++ ['}']) = ('{' :: mid) ++ ['}'] from rfl]
    rw [endsChar_append_singleton]
    rfl
  unfold cleanJsonResponse
  rw [hstrip2]
  rw [if_neg (by simp)]
  unfold repairBody
  rw [hfence2, hstrip2]
  rw [slc_cut_comment ('{' :: mid ++ ['}']) c hSS hend2 hcNl]
  rw [stripBlockComments_id _ hOpen, removeTrailingCommas_id _ hTrail,
    extractBraces_sandwich]

/-- Repairing the text with a `/* ... */` block comment inserted between
two halves of its body returns the undecorated text. -/
theorem clean_block_comment (m1 m2 bc : List Char)
    (hTrail : noTrailPat ('{' :: (m1 ++ m2) ++ ['}']) = true)
    (hbcSS : hasPair '/' '/'
      (('{' :: m1) ++ '/' :: '*' :: (bc ++ '*' :: '/' :: (m2 ++ ['}']))) = false)
    (hbcOpen1 : hasPair '/' '*' ('{' :: m1) = false)
    (hbcClose : hasPair '*' '/' bc = false)
    (hbcOpen2 : hasPair '/' '*' (m2 ++ ['}']) = false) :
    cleanJsonResponse (('{' :: m1) ++ '/' :: '*' :: (bc ++ '*' :: '/' :: (m2 ++ ['}'])))
      = .ok ('{' :: (m1 ++ m2) ++ ['}']) := by
  have hshape3 : ('{' :: m1) ++ '/' :: '*' :: (bc ++ '*' :: '/' :: (m2 ++ ['}']))
      = '{' :: (m1 ++ '/' :: '*' :: (bc ++ '*' :: '/' :: m2)) ++ ['}'] := by
    simp
  have hstrip3 : pyStrip (('{' :: m1) ++ '/' :: '*' :: (bc ++ '*' :: '/' :: (m2 ++ ['}'])))
      = ('{' :: m1) ++ '/' :: '*' :: (bc ++ '*' :: '/' :: (m2 ++ ['}'])) := by
    rw [hshape3]
    exact pyStrip_sandwich _ _ _ (by decide) (by decide)
  have hfence3 : stripFences (('{' :: m1) ++ '/' :: '*' :: (bc ++ '*' :: '/' :: (m2 ++ ['}'])))
      = ('{' :: m1) ++ '/' :: '*' :: (bc ++ '*' :: '/' :: (m2 ++ ['}'])) := by
    rw [hshape3]
    exact stripFences_sandwich _ _ _ (by rfl) (by rfl) (by decide)
  unfold cleanJsonResponse
  rw [hstrip3]
  rw [if_neg (by simp)]
  unfold repairBody
  rw [hfence3, hstrip3]
  rw [stripLineComments_id _ hbcSS]
  rw [stripBlockComments_remove ('{' :: m1) bc (m2 ++ ['}'])
    hbcOpen1 hbcClose hbcOpen2]
  rw [show ('{' :: m1) ++ (m2 ++ ['}']) = '{' :: (m1 ++ m2) ++ ['}'] from by simp]
  rw [removeTrailingCommas_id _ hTrail, extractBraces_sandwich]

/-- Repairing the text with a trailing comma inserted before its closing
brace returns the undecorated text. -/
theorem clean_trailing_comma (mid : List Char)
    (hSS : hasPair '/' '/' ('{' :: mid ++ ['}']) = false)
    (hOpen : hasPair '/' '*' ('{' :: mid ++ ['}']) = false)
    (hTrail : noTrailPat ('{' :: mid ++ ['}']) = true) :
    cleanJsonResponse (('{' :: mid) ++ [',', '}']) = .ok ('{' :: mid ++ ['}']) := by
  have hSSp : hasPair '/' '/' ('{' :: mid) = false := hasPair_left _ _ hSS
  have hOpenp : hasPair '/' '*' ('{' :: mid) = false := hasPair_left _ _ hOpen
  have hSS4 : hasPair '/' '/' (('{' :: mid) ++ [',', '}']) = false :=
    hasPair_append _ _ hSSp (by rfl) (by rfl)
  have hOpen4 : hasPair '/' '*' (('{' :: mid) ++ [',', '}']) = false :=
    hasPair_append _ _ hOpenp (by rfl) (by rfl)
  have hshape4 : ('{' :: mid) ++ [',', '}'] = '{' :: (mid ++ [',']) ++ ['}'] := by
    simp
  have hstrip4 : pyStrip (('{' :: mid) ++ [',', '}'])
      = ('{' :: mid) ++ [',', '}'] := by
    rw [hshape4]
    exact pyStrip_sandwich _ _ _ (by decide) (by decide)
  have hfence4 : stripFences (('{' :: mid) ++ [',', '}'])
      = ('{' :: mid) ++ [',', '}'] := by
    rw [hshape4]
    exact stripFences_sandwich _ _ _ (by rfl) (by rfl) (by decide)
  unfold cleanJsonResponse
  rw [hstrip4]
  rw [if_neg (by simp)]
  unfold repairBody
  rw [hfence4, hstrip4]
  rw [stripLineComments_id _ hSS4]
  rw [stripBlockComments_id _ hOpen4]
  rw [removeTrailingCommas_insert ('{' :: mid) [] hTrail]
  rw [extractBraces_sandwich]

/-- The round-trip example of the specification: a fenced response with a
`//` comment and a trailing comma. -/
def exampleResponse : List Char :=
  "```json\n\x7b\"reasoning\":\"ok\", // note\n\"actions\":[],\n\"confidence\":0.5,\x7d\n```".data

/-- Counterexample to C7 as stated: the valid JSON object
`{"u":"http://x"}` parses, but after merely wrapping its text in a code
fence the repair parser truncates the quoted URL at its `//` and the
repaired text no longer parses at all — so the round trip fails for
objects whose string values contain `//`. -/
theorem cleanJsonResponse_roundtrip_counterexample :
    pyJsonLoads "\x7b\"u\":\"http://x\"\x7d".data
      = .ok (.obj [("u".data, .str "http://x".data)]) ∧
    (cleanJsonResponse (fenceWrap "\x7b\"u\":\"http://x\"\x7d".data)).bind pyJsonLoads
      = .error (.jsonDecodeError "Expecting value".data) :=
  ⟨rfl, rfl⟩

/-- Claim C7 (amended): for any brace-delimited JSON text `{mid}` that
contains no `//`, no `/*`, and no comma followed (modulo whitespace) by a
closing bracket, decorating its text by wrapping it in a code fence,
appending a `//` line comment (no newline, no backtick, no trailing
whitespace), inserting a `/* ... */` block comment (whose body has no `*/`,
with no `//` or `/*` created elsewhere), or adding a trailing comma before
the closing brace, and then running the repair parser, yields exactly the
original text — hence repair-then-parse agrees with parsing the original,
an object deep-equal to the original.  Without the restriction on string
contents this fails (see the counterexample).  In particular the fenced
example with a `// note` comment and a trailing comma repairs to
`{"reasoning":"ok","actions":[],"confidence":0.5}`. -/
theorem cleanJsonResponse_roundtrip (mid m1 m2 c bc : List Char)
    (hmid : mid = m1 ++ m2)
    (hSS : hasPair '/' '/' ('{' :: mid ++ ['}']) = false)
    (hOpen : hasPair '/' '*' ('{' :: mid ++ ['}']) = false)
    (hTrail : noTrailPat ('{' :: mid ++ ['}']) = true)
    (hcNl : hasChar '\n' c = false) (hcTick : hasChar '`' c = false)
    (hcTrim : c.reverse.dropWhile isPyWs = c.reverse)
    (hbcSS : hasPair '/' '/'
      (('{' :: m1) ++ '/' :: '*' :: (bc ++ '*' :: '/' :: (m2 ++ ['}']))) = false)
    (hbcOpen1 : hasPair '/' '*' ('{' :: m1) = false)
    (hbcClose : hasPair '*' '/' bc = false)
    (hbcOpen2 : hasPair '/' '*' (m2 ++ ['}']) = false) :
    ((cleanJsonResponse ('{' :: mid ++ ['}'])).bind pyJsonLoads
       = pyJsonLoads ('{' :: mid ++ ['}']) ∧
     (cleanJsonResponse (fenceWrap ('{' :: mid ++ ['}']))).bind pyJsonLoads
       = pyJsonLoads ('{' :: mid ++ ['}']) ∧
     (cleanJsonResponse (('{' :: mid ++ ['}']) ++ '/' :: '/' :: c)).bind pyJsonLoads
       = pyJsonLoads ('{' :: mid ++ ['}']) ∧
     (cleanJsonResponse
        (('{' :: m1) ++ '/' :: '*' :: (bc ++ '*' :: '/' :: (m2 ++ ['}'])))).bind
          pyJsonLoads
       = pyJsonLoads ('{' :: mid ++ ['}']) ∧
     (cleanJsonResponse (('{' :: mid) ++ [',', '}'])).bind pyJsonLoads
       = pyJsonLoads ('{' :: mid ++ ['}'])) ∧
    (cleanJsonResponse exampleResponse).bind pyJsonLoads
      = .ok (.obj [("reasoning".data, .str "ok".data),
                   ("actions".data, .arr []),
                   ("confidence".data, .num (mkRat 1 2))]) := by
  subst hmid
  refine ⟨⟨?_, ?_, ?_, ?_, ?_⟩, ?_⟩
  · rw [clean_plain _ hSS hOpen hTrail]; rfl
  · rw [clean_fence _ hSS hOpen hTrail]; rfl
  · rw [clean_line_comment _ c hSS hOpen hTrail hcNl hcTick hcTrim]; rfl
  · rw [clean_block_comment m1 m2 bc hTrail hbcSS hbcOpen1 hbcClose hbcOpen2]; rfl
  · rw [clean_trailing_comma _ hSS hOpen hTrail]; rfl
  · rfl

/-- Witness for C7 (amended): the object text `{"a": 1}` survives fencing,
an appended `// note`, an inserted `/* hint */` and a trailing comma. -/
theorem cleanJsonResponse_roundtrip_witness :
    (cleanJsonResponse (fenceWrap ('{' :: "\"a\": 1".data ++ ['}']))).bind pyJsonLoads
      = pyJsonLoads ('{' :: "\"a\": 1".data ++ ['}']) ∧
    (cleanJsonResponse (('{' :: "\"a\": 1".data ++ ['}'])
        ++ '/' :: '/' :: " note".data)).bind pyJsonLoads
      = pyJsonLoads ('{' :: "\"a\": 1".data ++ ['}']) ∧
    (cleanJsonResponse (('{' :: "\"a\":".data)
        ++ '/' :: '*' :: (" hint ".data ++ '*' :: '/' :: (" 1".data ++ ['}'])))).bind
          pyJsonLoads
      = pyJsonLoads ('{' :: "\"a\": 1".data ++ ['}']) ∧
    (cleanJsonResponse (('{' :: "\"a\": 1".data) ++ [',', '}'])).bind pyJsonLoads
      = pyJsonLoads ('{' :: "\"a\": 1".data ++ ['}']) := by
  have h := cleanJsonResponse_roundtrip "\"a\": 1".data "\"a\":".data " 1".data
    " note".data " hint ".data rfl (by decide) (by decide) (by decide)
    (by decide) (by decide) (by decide) (by decide) (by decide) (by decide)
    (by decide)
  exact ⟨h.1.2.1, h.1.2.2.1, h.1.2.2.2.1, h.1.2.2.2.2⟩

end Agently
